import Mathlib

/-!
Shallow embedding of the BusTub buffer-pool sources:
  - `src/src/buffer/lru_replacer.cpp`        (LRUReplacer)
  - `src/unnamed/part_001`                   (BufferPoolManagerInstance)
  - `src/unnamed/part_000`                   (ParallelBufferPoolManager)

Modelling conventions.
  * `page_id_t` / pin counts are C `int`s; they are modelled as `Int`
    (two's-complement overflow is undefined behaviour in the source and is
    not modelled).  `INVALID_PAGE_ID = -1`.  Frame ids are list indices,
    modelled as `Nat`.
  * `size_t` arithmetic wraps at `2 ^ 64`; the one place the source
    subtracts from a `size_t` (`capacity - 1` in `LRUReplacer::Unpin`)
    is modelled with the explicit wrap.
  * Latches serialize the operations in the source; the embedding gives
    the sequential (single-threaded) semantics of each operation.
  * The disk manager is modelled as a map `Int → Nat` of page contents
    plus an ordered trace of calls (`Action`); table insertions/removals
    are also recorded in the trace so that "written before the table
    entry is removed" is statable.
  * `std::unordered_map` iteration order is unspecified; the page table
    is an association list and the one full-table scan in the source
    (`FindReplacePolicy`) takes the first hit in list order.
  * The divergence in `LRUReplacer::Unpin` (its eviction loop never
    terminates when `capacity ≤ 1` and the list drains) is modelled by
    returning `none`; operations that cannot diverge return plain values.
-/

set_option maxHeartbeats 1000000
set_option maxRecDepth 8000

namespace Bustub

/-- One `Page` object of `pages_`: the page id currently held
(`page_id_`, sentinel `-1`), the pin count (`pin_count_`), the dirty
flag (`is_dirty_`) and the frame's byte content (`data_`, abstracted to
a single `Nat`). -/
structure Page where
  page_id : Int
  pin_count : Int
  is_dirty : Bool
  data : Nat
deriving Repr, DecidableEq

/-- A default-constructed `Page`: invalid id, pin count 0, clean. -/
def initPage : Page := ⟨-1, 0, false, 0⟩

/-- One call the instance makes against the disk manager or its own page
table, recorded in source statement order. -/
inductive Action where
  | writePage (pid : Int) (d : Nat)
  | readPage (pid : Int)
  | deallocPage (pid : Int)
  | eraseEntry (pid : Int)
  | insertEntry (pid : Int) (fid : Nat)
deriving Repr, DecidableEq

/-- `LRUReplacer`: the doubly linked list `lru` (front = most recently
unpinned, back = victim) and the configured `capacity`.  The auxiliary
`hashMap` of the source only mirrors list membership and needs no
separate field. -/
structure LRU where
  lru : List Nat
  capacity : Nat
deriving Repr, DecidableEq

/-- `LRUReplacer::Victim`: take the back of the list, or fail when
empty. -/
def LRU.victim (r : LRU) : Option (Nat × LRU) :=
  match r.lru.getLast? with
  | none => none
  | some f => some (f, ⟨r.lru.dropLast, r.capacity⟩)

/-- `LRUReplacer::Pin`: erase the frame id when present, no-op
otherwise. -/
def LRU.pin (r : LRU) (fid : Nat) : LRU :=
  if fid ∈ r.lru then ⟨r.lru.erase fid, r.capacity⟩ else r

/-- The `size_t` expression `capacity - 1` of `LRUReplacer::Unpin`,
with the 64-bit wrap: the numerals are `2 ^ 64 - 1` and `2 ^ 64`
(for `1 ≤ capacity ≤ 2 ^ 64` the value is `capacity - 1`). -/
def size_tPred (n : Nat) : Nat :=
  (n + 18446744073709551615) % 18446744073709551616

/-- The `while (lru.size() >= capacity - 1) Victim(...)` loop of
`LRUReplacer::Unpin`, acting on the reversed list so that popping the
back is structural (each iteration removes the head of the reverse).
When the list is empty and the guard still holds (`capacity - 1 = 0`),
`Victim` returns `false` without changing anything and the source loops
forever, modelled as `none`. -/
def LRU.unpinLoopRev (cap : Nat) : List Nat → Option (List Nat)
  | [] => if size_tPred cap = 0 then none else some []
  | x :: xs =>
    if size_tPred cap ≤ (x :: xs).length then LRU.unpinLoopRev cap xs
    else some (x :: xs)

/-- The eviction loop of `LRUReplacer::Unpin` on the list in front-first
order: pop from the back while `size() >= capacity - 1`. -/
def LRU.unpinLoop (cap : Nat) (l : List Nat) : Option (List Nat) :=
  (LRU.unpinLoopRev cap l.reverse).map List.reverse

/-- `LRUReplacer::Unpin`: no-op if the frame id is present; otherwise
run the eviction loop and then push the id at the front. -/
def LRU.unpin (r : LRU) (fid : Nat) : Option LRU :=
  if fid ∈ r.lru then some r
  else (LRU.unpinLoop r.capacity r.lru).map (fun l => ⟨fid :: l, r.capacity⟩)

/-- `LRUReplacer::Size`. -/
def LRU.size (r : LRU) : Nat := r.lru.length

/-- The state of one `BufferPoolManagerInstance`, plus the disk manager's
page contents. -/
structure BPMState where
  pool_size : Nat
  num_instances : Int
  instance_index : Int
  next_page_id : Int
  pages : List Page
  page_table : List (Int × Nat)
  free_list : List Nat
  replacer : LRU
  disk : Int → Nat

/-- `pages_[fid]` (out-of-range access is undefined behaviour in the
source; the model returns a default page). -/
def pageAt (s : BPMState) (fid : Nat) : Page := s.pages.getD fid initPage

/-- `page_table_.find(pid)`. -/
def ptLookup (t : List (Int × Nat)) (pid : Int) : Option Nat :=
  (t.find? (fun e => e.1 == pid)).map (fun e => e.2)

/-- `page_table_.erase(pid)` (keys are unique, so filtering is the
same removal). -/
def ptErase (t : List (Int × Nat)) (pid : Int) : List (Int × Nat) :=
  t.filter (fun e => e.1 != pid)

/-- `page_table_[pid] = fid` (insert-or-assign; an unordered map has no
element order, so the entry is kept at the front). -/
def ptInsert (t : List (Int × Nat)) (pid : Int) (fid : Nat) : List (Int × Nat) :=
  (pid, fid) :: ptErase t pid

/-- `DiskManager::WritePage`'s effect on disk contents. -/
def diskWrite (d : Int → Nat) (pid : Int) (v : Nat) : Int → Nat :=
  fun q => if q = pid then v else d q

/-- `BufferPoolManagerInstance::FindReplacePolicy`.  Free list first;
otherwise ask the replacer for a victim, scan the page table for the
victim's page id, write back if dirty (also zeroing the pin count, as
the source does), and erase the table entry keyed by the frame's own
`page_id_` field.  A scan hit whose page id is `-1` is treated as a
miss, because the source stores the found page id in an `int`
initialised to `-1` and tests it against `-1`.  Failures after a
successful `Victim` keep the replacer mutation, as the source does. -/
def findReplacePolicy (s : BPMState) : Option Nat × BPMState × List Action :=
  match s.free_list with
  | f :: rest => (some f, { s with free_list := rest }, [])
  | [] =>
    match s.replacer.victim with
    | none => (none, s, [])
    | some (fid, r) =>
      let s1 := { s with replacer := r }
      match s1.page_table.find? (fun e => e.2 == fid) with
      | none => (none, s1, [])
      | some e =>
        if e.1 = -1 then (none, s1, [])
        else
          let pg := pageAt s1 fid
          if pg.is_dirty then
            (some fid,
             { s1 with disk := diskWrite s1.disk pg.page_id pg.data,
                       pages := s1.pages.set fid { pg with pin_count := 0 },
                       page_table := ptErase s1.page_table pg.page_id },
             [Action.writePage pg.page_id pg.data, Action.eraseEntry pg.page_id])
          else
            (some fid,
             { s1 with page_table := ptErase s1.page_table pg.page_id },
             [Action.eraseEntry pg.page_id])

/-- `BufferPoolManagerInstance::FlushPgImp`: fail on a table miss or on
`INVALID_PAGE_ID`; otherwise write the frame's bytes (the dirty flag is
not cleared). -/
def flushPg (s : BPMState) (pid : Int) : Bool × BPMState × List Action :=
  match ptLookup s.page_table pid with
  | none => (false, s, [])
  | some fid =>
    if pid = -1 then (false, s, [])
    else
      (true, { s with disk := diskWrite s.disk pid (pageAt s fid).data },
       [Action.writePage pid (pageAt s fid).data])

/-- `BufferPoolManagerInstance::AllocatePage`: return the current
`next_page_id_`, advance it by `num_instances_`; `ValidatePageId`
asserts the returned id is in this instance's residue class (an assert
failure aborts the process, modelled as `none`). -/
def allocatePage (s : BPMState) : Option (Int × BPMState) :=
  let p := s.next_page_id
  let s1 := { s with next_page_id := s.next_page_id + s.num_instances }
  if p % s1.num_instances = s1.instance_index then some (p, s1) else none

/-- `BufferPoolManagerInstance::NewPgImp`.  Allocate first (the id is
consumed even on failure); return null if every frame has a nonzero pin
count; otherwise take a frame from `FindReplacePolicy`, install the new
page id with pin count incremented and dirty cleared (three consecutive
field assignments of the source combined into one frame update), add
the table entry, remove the frame from the replacer, and write the
frame's (unchanged) bytes to disk under the new id. -/
def newPg (s : BPMState) : Option (Option (Int × Nat) × BPMState × List Action) :=
  match allocatePage s with
  | none => none
  | some (pid, s1) =>
    if s1.pages.all (fun pg => pg.pin_count != 0) then some (none, s1, [])
    else
      match findReplacePolicy s1 with
      | (none, s2, acts) => some (none, s2, acts)
      | (some fid, s2, acts) =>
        let pg := pageAt s2 fid
        let pg1 := { pg with page_id := pid, pin_count := pg.pin_count + 1,
                             is_dirty := false }
        let s3 := { s2 with pages := s2.pages.set fid pg1,
                            replacer := s2.replacer.pin fid,
                            page_table := ptInsert s2.page_table pid fid }
        some (some (pid, fid),
              { s3 with disk := diskWrite s3.disk pid pg1.data },
              acts ++ [Action.insertEntry pid fid, Action.writePage pid pg1.data])

/-- `BufferPoolManagerInstance::FetchPgImp`.  On a table hit, pin the
frame and remove it from the replacer.  On a miss, take a frame from
`FindReplacePolicy`; if its (pre-eviction) dirty flag is set, write its
old page back once more (the flag was not cleared); erase the old table
entry (keyed by the frame's `page_id_` field) and insert the new one;
read the page from disk and install the new metadata (the source's
consecutive assignments combined into one frame update); remove the
frame from the replacer. -/
def fetchPg (s : BPMState) (pid : Int) : Option Nat × BPMState × List Action :=
  match ptLookup s.page_table pid with
  | some fid =>
    let pg := pageAt s fid
    (some fid,
     { s with pages := s.pages.set fid { pg with pin_count := pg.pin_count + 1 },
              replacer := s.replacer.pin fid },
     [])
  | none =>
    match findReplacePolicy s with
    | (none, s1, acts) => (none, s1, acts)
    | (some fid, s1, acts) =>
      let pg := pageAt s1 fid
      if pg.is_dirty then
        let d2 := diskWrite s1.disk pg.page_id pg.data
        let pg1 : Page := { pg with data := d2 pid, page_id := pid,
                                    pin_count := pg.pin_count + 1, is_dirty := false }
        (some fid,
         { s1 with disk := d2,
                   page_table := ptInsert (ptErase s1.page_table pg.page_id) pid fid,
                   pages := s1.pages.set fid pg1,
                   replacer := s1.replacer.pin fid },
         acts ++ [Action.writePage pg.page_id pg.data, Action.eraseEntry pg.page_id,
                  Action.insertEntry pid fid, Action.readPage pid])
      else
        let pg1 : Page := { pg with data := s1.disk pid, page_id := pid,
                                    pin_count := pg.pin_count + 1, is_dirty := false }
        (some fid,
         { s1 with page_table := ptInsert (ptErase s1.page_table pg.page_id) pid fid,
                   pages := s1.pages.set fid pg1,
                   replacer := s1.replacer.pin fid },
         acts ++ [Action.eraseEntry pg.page_id, Action.insertEntry pid fid,
                  Action.readPage pid])

/-- `BufferPoolManagerInstance::UnpinPgImp`: miss returns `false`; the
dirty flag is made sticky first; a pin count already at zero calls
`replacer.Unpin` and returns `false` without decrementing; otherwise
decrement and, on reaching zero, call `replacer.Unpin`.  `none` models
the divergence of `LRUReplacer::Unpin`. -/
def unpinPg (s : BPMState) (pid : Int) (d : Bool) :
    Option (Bool × BPMState × List Action) :=
  match ptLookup s.page_table pid with
  | none => some (false, s, [])
  | some fid =>
    let pg0 := pageAt s fid
    let pg : Page := { pg0 with is_dirty := pg0.is_dirty || d }
    let s1 := { s with pages := s.pages.set fid pg }
    if pg0.pin_count = 0 then
      (s1.replacer.unpin fid).map (fun r => (false, { s1 with replacer := r }, []))
    else
      let pg1 : Page := { pg with pin_count := pg0.pin_count - 1 }
      let s2 := { s with pages := s.pages.set fid pg1 }
      if pg0.pin_count - 1 = 0 then
        (s2.replacer.unpin fid).map (fun r => (true, { s2 with replacer := r }, []))
      else
        some (true, s2, [])

/-- `BufferPoolManagerInstance::DeletePgImp`: a miss returns `true`; a
pinned page returns `false`; otherwise flush when dirty, call
`DeallocatePage` (modelled from the spec: the body lives in the header,
which is not among the sources; the spec says delete "deallocates on
disk (`disk_manager.deallocate_page`)", modelled as the recorded
`deallocPage` call), erase the table entry, reset the frame's metadata
and push the frame onto the free list.  The replacer is not touched. -/
def deletePg (s : BPMState) (pid : Int) : Bool × BPMState × List Action :=
  match ptLookup s.page_table pid with
  | none => (true, s, [])
  | some fid =>
    let pg := pageAt s fid
    if 0 < pg.pin_count then (false, s, [])
    else if pg.is_dirty then
      let s1 := (flushPg s pid).2.1
      (true,
       { s1 with
           page_table := ptErase s1.page_table pid,
           pages := s1.pages.set fid
             { pg with is_dirty := false, pin_count := 0, page_id := -1 },
           free_list := s1.free_list ++ [fid] },
       (flushPg s pid).2.2 ++ [Action.deallocPage pid, Action.eraseEntry pid])
    else
      (true,
       { s with
           page_table := ptErase s.page_table pid,
           pages := s.pages.set fid
             { pg with is_dirty := false, pin_count := 0, page_id := -1 },
           free_list := s.free_list ++ [fid] },
       [Action.deallocPage pid, Action.eraseEntry pid])

/-- One public operation of the instance. -/
inductive Op where
  | fetch (pid : Int)
  | newPage
  | unpin (pid : Int) (d : Bool)
  | flush (pid : Int)
  | delete (pid : Int)
deriving Repr, DecidableEq

/-- Apply one public operation, keeping only the successor state
(`none` = the operation diverges or aborts). -/
def applyOp (s : BPMState) : Op → Option BPMState
  | Op.fetch pid => some (fetchPg s pid).2.1
  | Op.newPage => (newPg s).map (fun r => r.2.1)
  | Op.unpin pid d => (unpinPg s pid d).map (fun r => r.2.1)
  | Op.flush pid => some (flushPg s pid).2.1
  | Op.delete pid => some (deletePg s pid).2.1

/-- Run a sequence of public operations. -/
def runOps (s : BPMState) : List Op → Option BPMState
  | [] => some s
  | op :: ops => (applyOp s op).bind (fun s1 => runOps s1 ops)

/-- Run a sequence of public operations, also collecting the page id
consumed by `AllocatePage` at each `newPage` call (successful or not). -/
def runAlloc (s : BPMState) : List Op → Option (BPMState × List Int)
  | [] => some (s, [])
  | Op.newPage :: ops =>
    (applyOp s Op.newPage).bind
      (fun s1 => (runAlloc s1 ops).map (fun r => (r.1, s.next_page_id :: r.2)))
  | op :: ops => (applyOp s op).bind (fun s1 => runAlloc s1 ops)

/-- The `BufferPoolManagerInstance` constructor: `next_page_id_`
initialised to the instance index, all frames default-constructed and on
the free list, an empty replacer of capacity `pool_size`. -/
def mkInstance (pool_size : Nat) (n i : Int) : BPMState :=
  { pool_size := pool_size, num_instances := n, instance_index := i,
    next_page_id := i,
    pages := List.replicate pool_size initPage,
    page_table := [], free_list := List.range pool_size,
    replacer := ⟨[], pool_size⟩, disk := fun _ => 0 }

/-- The page ids currently resident (the page table's keys). -/
def residentPids (s : BPMState) : List Int := s.page_table.map (fun e => e.1)

/-- Within one operation's recorded trace: a `writePage p d` call occurs,
and no removal of `p`'s table entry and no read of page `q` happens
before the first such write. -/
def dirtyWriteFirst (p : Int) (d : Nat) (q : Int) (acts : List Action) : Prop :=
  Action.writePage p d ∈ acts ∧
    ∀ a ∈ acts.takeWhile (fun a => !decide (a = Action.writePage p d)),
      a ≠ Action.eraseEntry p ∧ a ≠ Action.readPage q

instance (p : Int) (d : Nat) (q : Int) (acts : List Action) :
    Decidable (dirtyWriteFirst p d q acts) := by
  unfold dirtyWriteFirst; infer_instance

/-! Concrete states shared by several scenario theorems below. -/

/-- The scenario-S1 operation sequence of the spec, on a fresh single
instance of pool size 3: three `new_page`s, unpin all three, one more
`new_page`. -/
def s1ops : List Op :=
  [Op.newPage, Op.newPage, Op.newPage,
   Op.unpin 0 false, Op.unpin 1 false, Op.unpin 2 false, Op.newPage]

/-- Fresh pool-size-3 single instance after `new_page` (→ page 0) and
`unpin(0, false)`: page 0 resident in frame 0 with pin count 0. -/
def sNewUnpin3 : BPMState :=
  (runOps (mkInstance 3 1 0) [Op.newPage, Op.unpin 0 false]).getD (mkInstance 3 1 0)

/-- Fresh pool-size-2 single instance after `fetch(-1)` (the unguarded
sentinel fetch, which makes page `-1` resident in frame 0) and
`unpin(-1, true)`: frame 0 holds page `-1`, dirty, pin count 0. -/
def sDirtyInvalid : BPMState :=
  (runOps (mkInstance 2 1 0) [Op.fetch (-1), Op.unpin (-1) true]).getD (mkInstance 2 1 0)

/-- Fresh pool-size-3 single instance after one successful `new_page`
(page 0 resident in frame 0 with pin count 1). -/
def sNew3 : BPMState :=
  (runOps (mkInstance 3 1 0) [Op.newPage]).getD (mkInstance 3 1 0)

/-- Fresh pool-size-1 single instance after one successful `new_page`:
its single frame is pinned. -/
def sAllPinned1 : BPMState :=
  (runOps (mkInstance 1 1 0) [Op.newPage]).getD (mkInstance 1 1 0)

/-! Helper lemmas about lists and the replacer. -/

theorem getD_set_ne {α : Type} (l : List α) (i j : Nat) (a d : α) (h : i ≠ j) :
    (l.set i a).getD j d = l.getD j d := by
  simp [List.getD_eq_getElem?_getD, List.getElem?_set_ne h]

theorem LRU.victim_eq {r : LRU} {f : Nat} {r' : LRU} (h : r.victim = some (f, r')) :
    r'.lru.Sublist r.lru ∧ r'.capacity = r.capacity := by
  unfold LRU.victim at h
  cases hg : r.lru.getLast? with
  | none => rw [hg] at h; cases h
  | some x =>
    rw [hg] at h
    cases h
    exact ⟨List.dropLast_sublist _, rfl⟩

theorem LRU.pin_sublist (r : LRU) (fid : Nat) : (r.pin fid).lru.Sublist r.lru := by
  unfold LRU.pin
  split
  · exact List.erase_sublist _ _
  · exact List.Sublist.refl _

theorem LRU.pin_capacity (r : LRU) (fid : Nat) : (r.pin fid).capacity = r.capacity := by
  unfold LRU.pin
  split <;> rfl

theorem LRU.not_mem_pin (r : LRU) (fid : Nat) (h : r.lru.Nodup) :
    fid ∉ (r.pin fid).lru := by
  unfold LRU.pin
  split
  · intro hm
    exact ((h.mem_erase_iff).mp hm).1 rfl
  · assumption

theorem LRU.unpinLoopRev_sublist (cap : Nat) (l l' : List Nat)
    (h : LRU.unpinLoopRev cap l = some l') : l'.Sublist l := by
  induction l with
  | nil =>
    rw [LRU.unpinLoopRev] at h
    split at h
    · cases h
    · cases h; exact List.Sublist.refl _
  | cons x xs ih =>
    rw [LRU.unpinLoopRev] at h
    split at h
    · exact (ih h).trans (List.sublist_cons_self x xs)
    · cases h; exact List.Sublist.refl _

theorem LRU.unpinLoopRev_isSome (cap : Nat) (l : List Nat)
    (h : size_tPred cap ≠ 0) : ∃ l', LRU.unpinLoopRev cap l = some l' := by
  induction l with
  | nil =>
    refine ⟨[], ?_⟩
    rw [LRU.unpinLoopRev]
    simp [h]
  | cons x xs ih =>
    rw [LRU.unpinLoopRev]
    split
    · exact ih
    · exact ⟨x :: xs, rfl⟩

theorem LRU.unpinLoop_sublist (cap : Nat) (l l' : List Nat)
    (h : LRU.unpinLoop cap l = some l') : l'.Sublist l := by
  unfold LRU.unpinLoop at h
  cases hr : LRU.unpinLoopRev cap l.reverse with
  | none => rw [hr] at h; cases h
  | some l0 =>
    rw [hr] at h
    cases h
    have h1 := (LRU.unpinLoopRev_sublist cap l.reverse l0 hr).reverse
    rwa [List.reverse_reverse] at h1

theorem LRU.unpin_cases {r : LRU} {fid : Nat} {r' : LRU} (h : r.unpin fid = some r') :
    (fid ∈ r.lru ∧ r' = r) ∨
      (fid ∉ r.lru ∧ ∃ l', l'.Sublist r.lru ∧ r' = ⟨fid :: l', r.capacity⟩) := by
  unfold LRU.unpin at h
  split at h
  · cases h
    left
    exact ⟨by assumption, rfl⟩
  · cases hl : LRU.unpinLoop r.capacity r.lru with
    | none => rw [hl] at h; cases h
    | some l0 =>
      rw [hl] at h
      cases h
      right
      exact ⟨by assumption, l0, LRU.unpinLoop_sublist _ _ _ hl, rfl⟩

/-! The replacer invariant of claim C4 (strengthened so that it is
inductive): the candidate list has no duplicates and every candidate
frame has pin count 0. -/

/-- Candidate frames are distinct and all have pin count 0. -/
def replInvOn (ps : List Page) (r : LRU) : Prop :=
  r.lru.Nodup ∧ ∀ fid ∈ r.lru, (ps.getD fid initPage).pin_count = 0

/-- The replacer invariant of a pool state. -/
def ReplInv (s : BPMState) : Prop := replInvOn s.pages s.replacer

theorem replInvOn_shrink {ps : List Page} {r r' : LRU} (h : replInvOn ps r)
    (hsub : r'.lru.Sublist r.lru) : replInvOn ps r' :=
  ⟨List.Nodup.sublist hsub h.1, fun fid hm => h.2 fid (hsub.subset hm)⟩

theorem replInv_of_eq {s t : BPMState} (h : ReplInv s) (hp : t.pages = s.pages)
    (hr : t.replacer = s.replacer) : ReplInv t := by
  unfold ReplInv replInvOn at *
  rw [hp, hr]
  exact h

theorem replInvOn_set_zero {ps : List Page} {r : LRU} {fid : Nat} {pg : Page}
    (h : replInvOn ps r) (hz : pg.pin_count = 0) :
    replInvOn (ps.set fid pg) r := by
  refine ⟨h.1, fun g hg => ?_⟩
  by_cases hgf : fid = g
  · subst hgf
    by_cases hlen : fid < ps.length
    · simp [List.getD_eq_getElem?_getD, List.getElem?_set_self hlen, hz]
    · rw [List.set_eq_of_length_le (le_of_not_lt hlen)]
      exact h.2 fid hg
  · rw [getD_set_ne _ _ _ _ _ hgf]
    exact h.2 g hg

theorem replInvOn_set_not_mem {ps : List Page} {r : LRU} {fid : Nat} {pg : Page}
    (h : replInvOn ps r) (hnm : fid ∉ r.lru) :
    replInvOn (ps.set fid pg) r := by
  refine ⟨h.1, fun g hg => ?_⟩
  have hne : fid ≠ g := fun e => hnm (e ▸ hg)
  rw [getD_set_ne _ _ _ _ _ hne]
  exact h.2 g hg

theorem replInvOn_unpin_insert {ps : List Page} {r : LRU} {fid : Nat} {pg : Page}
    {l' : List Nat} (h : replInvOn ps r) (hl : l'.Sublist r.lru)
    (hnm : fid ∉ r.lru) (hz : pg.pin_count = 0) (cap : Nat) :
    replInvOn (ps.set fid pg) ⟨fid :: l', cap⟩ := by
  constructor
  · exact List.Pairwise.cons (fun g hg e => hnm (e ▸ hl.subset hg))
      (List.Nodup.sublist hl h.1)
  · intro g hg
    rcases List.mem_cons.mp hg with hg | hg
    · subst hg
      by_cases hlen : g < ps.length
      · simp [List.getD_eq_getElem?_getD, List.getElem?_set_self hlen, hz]
      · rw [List.set_eq_of_length_le (le_of_not_lt hlen), List.getD_eq_default _ _ (le_of_not_lt hlen)]
        rfl
    · have hgm : g ∈ r.lru := hl.subset hg
      have hne : fid ≠ g := fun e => hnm (e ▸ hgm)
      rw [getD_set_ne _ _ _ _ _ hne]
      exact h.2 g hgm

/-- `FindReplacePolicy` preserves the replacer invariant. -/
theorem frp_replInv (s : BPMState) (h : ReplInv s) :
    ReplInv (findReplacePolicy s).2.1 := by
  unfold ReplInv findReplacePolicy
  split
  · exact h
  · split
    · exact h
    · rename_i fid r hv
      have hr := LRU.victim_eq hv
      dsimp only
      split
      · exact replInvOn_shrink h hr.1
      · split
        · exact replInvOn_shrink h hr.1
        · split
          · exact replInvOn_set_zero (replInvOn_shrink h hr.1) rfl
          · exact replInvOn_shrink h hr.1

/-- `FetchPgImp` preserves the replacer invariant. -/
theorem fetch_replInv (s : BPMState) (pid : Int) (h : ReplInv s) :
    ReplInv (fetchPg s pid).2.1 := by
  unfold fetchPg
  split
  · exact replInvOn_set_not_mem (replInvOn_shrink h (LRU.pin_sublist _ _))
      (LRU.not_mem_pin _ _ h.1)
  · split
    · rename_i s1 acts heq
      have h1 := frp_replInv s h
      rw [heq] at h1
      exact h1
    · rename_i fid s1 acts heq
      have h1 : ReplInv s1 := by
        have h2 := frp_replInv s h
        rw [heq] at h2
        exact h2
      dsimp only
      split
      · exact replInvOn_set_not_mem (replInvOn_shrink h1 (LRU.pin_sublist _ _))
          (LRU.not_mem_pin _ _ h1.1)
      · exact replInvOn_set_not_mem (replInvOn_shrink h1 (LRU.pin_sublist _ _))
          (LRU.not_mem_pin _ _ h1.1)

/-- `AllocatePage` either aborts on its assert or returns the old
`next_page_id_`, advancing it by `num_instances_`. -/
theorem allocatePage_eq {s : BPMState} {p : Int} {s1 : BPMState}
    (h : allocatePage s = some (p, s1)) :
    p = s.next_page_id ∧
      s1 = { s with next_page_id := s.next_page_id + s.num_instances } := by
  unfold allocatePage at h
  dsimp only at h
  split at h
  · cases h
    exact ⟨rfl, rfl⟩
  · cases h

/-- `NewPgImp` preserves the replacer invariant. -/
theorem newPg_replInv (s : BPMState) (h : ReplInv s) :
    ∀ r, newPg s = some r → ReplInv r.2.1 := by
  intro r hr
  unfold newPg at hr
  split at hr
  · cases hr
  · rename_i pid s1 halloc
    obtain ⟨hp, hs1⟩ := allocatePage_eq halloc
    have h1 : ReplInv s1 := by
      subst hs1
      exact replInv_of_eq h rfl rfl
    split at hr
    · cases hr
      exact h1
    · revert hr
      split
      · rename_i s2 acts heq
        intro hr
        cases hr
        have h2 := frp_replInv _ h1
        rw [heq] at h2
        exact h2
      · rename_i fid s2 acts heq
        intro hr
        cases hr
        have h2 : ReplInv s2 := by
          have h3 := frp_replInv _ h1
          rw [heq] at h3
          exact h3
        exact replInvOn_set_not_mem (replInvOn_shrink h2 (LRU.pin_sublist _ _))
          (LRU.not_mem_pin _ _ h2.1)

/-- `UnpinPgImp` preserves the replacer invariant whenever it
terminates. -/
theorem unpin_replInv (s : BPMState) (pid : Int) (d : Bool) (h : ReplInv s) :
    ∀ r, unpinPg s pid d = some r → ReplInv r.2.1 := by
  intro r hr
  unfold unpinPg at hr
  split at hr
  · cases hr
    exact replInv_of_eq h rfl rfl
  · rename_i fid hl
    dsimp only at hr
    split at hr
    · rename_i hz
      cases hu : s.replacer.unpin fid with
      | none => rw [hu] at hr; cases hr
      | some rr =>
        rw [hu] at hr
        cases hr
        unfold ReplInv
        dsimp only
        have hz' : ({ pageAt s fid with
            is_dirty := (pageAt s fid).is_dirty || d } : Page).pin_count = 0 := hz
        rcases LRU.unpin_cases hu with ⟨hm, hrr⟩ | ⟨hnm, l', hsub, hrr⟩
        · subst hrr
          exact replInvOn_set_zero h hz'
        · subst hrr
          exact replInvOn_unpin_insert h hsub hnm hz' _
    · rename_i hz
      have hnm : fid ∉ s.replacer.lru := fun hm => hz (h.2 fid hm)
      split at hr
      · rename_i hz1
        cases hu : s.replacer.unpin fid with
        | none => rw [hu] at hr; cases hr
        | some rr =>
          rw [hu] at hr
          cases hr
          unfold ReplInv
          dsimp only
          have hz1' : ({ pageAt s fid with
              is_dirty := (pageAt s fid).is_dirty || d,
              pin_count := (pageAt s fid).pin_count - 1 } : Page).pin_count = 0 := hz1
          rcases LRU.unpin_cases hu with ⟨hm, hrr⟩ | ⟨hnm', l', hsub, hrr⟩
          · subst hrr
            exact replInvOn_set_zero h hz1'
          · subst hrr
            exact replInvOn_unpin_insert h hsub hnm' hz1' _
      · cases hr
        exact replInvOn_set_not_mem h hnm

/-- `FlushPgImp` changes only the disk contents. -/
theorem flush_components (s : BPMState) (pid : Int) :
    (flushPg s pid).2.1.pages = s.pages ∧
      (flushPg s pid).2.1.replacer = s.replacer ∧
      (flushPg s pid).2.1.page_table = s.page_table ∧
      (flushPg s pid).2.1.free_list = s.free_list ∧
      (flushPg s pid).2.1.next_page_id = s.next_page_id ∧
      (flushPg s pid).2.1.num_instances = s.num_instances ∧
      (flushPg s pid).2.1.instance_index = s.instance_index := by
  unfold flushPg
  split
  · exact ⟨rfl, rfl, rfl, rfl, rfl, rfl, rfl⟩
  · split
    · exact ⟨rfl, rfl, rfl, rfl, rfl, rfl, rfl⟩
    · exact ⟨rfl, rfl, rfl, rfl, rfl, rfl, rfl⟩

/-- `FlushPgImp` preserves the replacer invariant. -/
theorem flush_replInv (s : BPMState) (pid : Int) (h : ReplInv s) :
    ReplInv (flushPg s pid).2.1 :=
  replInv_of_eq h (flush_components s pid).1 (flush_components s pid).2.1

/-- `DeletePgImp` preserves the replacer invariant. -/
theorem delete_replInv (s : BPMState) (pid : Int) (h : ReplInv s) :
    ReplInv (deletePg s pid).2.1 := by
  unfold deletePg
  split
  · exact replInv_of_eq h rfl rfl
  · rename_i fid hl
    dsimp only
    split
    · exact replInv_of_eq h rfl rfl
    · split
      · have hc := flush_components s pid
        unfold ReplInv
        dsimp only
        rw [hc.1, hc.2.1]
        exact replInvOn_set_zero h rfl
      · unfold ReplInv
        dsimp only
        exact replInvOn_set_zero h rfl

/-- Every public operation preserves the replacer invariant. -/
theorem applyOp_replInv {s : BPMState} {op : Op} {s' : BPMState}
    (h : ReplInv s) (ha : applyOp s op = some s') : ReplInv s' := by
  cases op with
  | fetch pid =>
    cases ha
    exact fetch_replInv s pid h
  | newPage =>
    simp only [applyOp] at ha
    cases hn : newPg s with
    | none => rw [hn] at ha; cases ha
    | some r =>
      rw [hn] at ha
      cases ha
      exact newPg_replInv s h r hn
  | unpin pid d =>
    simp only [applyOp] at ha
    cases hn : unpinPg s pid d with
    | none => rw [hn] at ha; cases ha
    | some r =>
      rw [hn] at ha
      cases ha
      exact unpin_replInv s pid d h r hn
  | flush pid =>
    cases ha
    exact flush_replInv s pid h
  | delete pid =>
    cases ha
    exact delete_replInv s pid h

/-- The replacer invariant holds in every state reachable by public
operations. -/
theorem runOps_replInv : ∀ (ops : List Op) (s s' : BPMState),
    ReplInv s → runOps s ops = some s' → ReplInv s' := by
  intro ops
  induction ops with
  | nil =>
    intro s s' h hr
    cases hr
    exact h
  | cons op ops ih =>
    intro s s' h hr
    unfold runOps at hr
    cases ha : applyOp s op with
    | none => rw [ha] at hr; cases hr
    | some s1 =>
      rw [ha] at hr
      exact ih s1 s' (applyOp_replInv h ha) hr

/-- A fresh instance satisfies the replacer invariant. -/
theorem mkInstance_replInv (pool_size : Nat) (n i : Int) :
    ReplInv (mkInstance pool_size n i) :=
  ⟨List.nodup_nil, fun fid hm => absurd hm (List.not_mem_nil fid)⟩

/-! Further small helpers used by the individual claim theorems. -/

theorem getD_set_self {α : Type} (l : List α) (i : Nat) (a d : α)
    (h : i < l.length) : (l.set i a).getD i d = a := by
  simp [List.getD_eq_getElem?_getD, List.getElem?_set_self h]

theorem ptLookup_erase (t : List (Int × Nat)) (pid : Int) :
    ptLookup (ptErase t pid) pid = none := by
  unfold ptLookup ptErase
  rw [Option.map_eq_none', List.find?_eq_none]
  intro e he
  have h2 := (List.mem_filter.mp he).2
  simp only [bne_iff_ne, ne_eq, decide_eq_true_eq] at h2
  simp [h2]

theorem ptLookup_insert (t : List (Int × Nat)) (pid : Int) (fid : Nat) :
    ptLookup (ptInsert t pid fid) pid = some fid := by
  unfold ptLookup ptInsert
  rw [List.find?_cons_of_pos]
  · rfl
  · simp

/-- A trace whose first action is the required write satisfies
`dirtyWriteFirst`. -/
theorem dirtyWriteFirst_head (p : Int) (d : Nat) (q : Int) (rest : List Action) :
    dirtyWriteFirst p d q (Action.writePage p d :: rest) := by
  constructor
  · exact List.mem_cons_self _ _
  · intro a ha
    rw [List.takeWhile_cons] at ha
    simp at ha

/-- The victim returned by `LRUReplacer::Victim` is a member of the
candidate list. -/
theorem LRU.victim_mem {r : LRU} {f : Nat} {r' : LRU}
    (h : r.victim = some (f, r')) : f ∈ r.lru := by
  unfold LRU.victim at h
  cases hl : r.lru with
  | nil => rw [hl] at h; cases h
  | cons a as =>
    rw [hl, List.getLast?_eq_getLast (a :: as) (by simp)] at h
    cases h
    exact List.getLast_mem _

/-- `LRUReplacer::Unpin` terminates whenever `capacity - 1` (as a
`size_t`) is nonzero. -/
theorem LRU.unpin_isSome (r : LRU) (fid : Nat)
    (h : size_tPred r.capacity ≠ 0) : ∃ r', r.unpin fid = some r' := by
  unfold LRU.unpin
  split
  · exact ⟨r, rfl⟩
  · obtain ⟨l', hl'⟩ := LRU.unpinLoopRev_isSome r.capacity r.lru.reverse h
    unfold LRU.unpinLoop
    rw [hl']
    exact ⟨_, rfl⟩

/-- C4.  In every state reachable from a fresh instance by any sequence
of public operations, no frame with pin count > 0 is a candidate in the
replacer: the operations only ever insert a frame into the replacer at
the moment its pin count is zero, and pinning a frame removes it. -/
theorem c4_no_pinned_candidate (pool_size : Nat) (n i : Int) (ops : List Op)
    (s : BPMState) (hrun : runOps (mkInstance pool_size n i) ops = some s) :
    ∀ fid ∈ s.replacer.lru, ¬ 0 < (pageAt s fid).pin_count := by
  have hinv : ReplInv s :=
    runOps_replInv ops (mkInstance pool_size n i) s
      (mkInstance_replInv pool_size n i) hrun
  intro fid hm
  have hz := hinv.2 fid hm
  unfold pageAt
  rw [hz]
  exact lt_irrefl 0

/-- C4 witness: after `new_page` and `unpin(0, false)` on a fresh
pool-size-3 instance, frame 0 is a replacer candidate and indeed is not
pinned. -/
theorem c4_no_pinned_candidate_witness :
    ¬ 0 < (pageAt sNewUnpin3 0).pin_count :=
  c4_no_pinned_candidate 3 1 0 [Op.newPage, Op.unpin 0 false] sNewUnpin3
    rfl 0 (by decide)

/-- C9.  Unpinning a resident page whose pin count is already zero
returns `false` and leaves that pin count at zero (it never goes
negative); the hypothesis on the capacity keeps the source's eviction
loop inside `LRUReplacer::Unpin` from diverging (`capacity - 1 ≠ 0` as
a `size_t`). -/
theorem c9_double_unpin (s : BPMState) (pid : Int) (d : Bool) (fid : Nat)
    (hl : ptLookup s.page_table pid = some fid)
    (hz : (pageAt s fid).pin_count = 0)
    (hcap : size_tPred s.replacer.capacity ≠ 0) :
    (unpinPg s pid d).map (fun r => r.1) = some false ∧
      (unpinPg s pid d).map (fun r => (pageAt r.2.1 fid).pin_count) = some 0 := by
  unfold unpinPg
  rw [hl]
  dsimp only
  rw [if_pos hz]
  obtain ⟨r', hr'⟩ := LRU.unpin_isSome s.replacer fid hcap
  rw [hr']
  refine ⟨rfl, ?_⟩
  dsimp only [Option.map]
  unfold pageAt
  dsimp only
  by_cases hlen : fid < s.pages.length
  · rw [getD_set_self _ _ _ _ hlen]
    exact congrArg Option.some hz
  · rw [List.set_eq_of_length_le (le_of_not_lt hlen),
        List.getD_eq_default _ _ (le_of_not_lt hlen)]
    rfl

/-- C9 witness: scenario S4 endgame — in the state after `new`→p0 and
`unpin(0, false)` on a fresh pool-size-3 instance, a second
`unpin(0, false)` returns `false` and the pin count stays 0. -/
theorem c9_double_unpin_witness :
    (unpinPg sNewUnpin3 0 false).map (fun r => r.1) = some false ∧
      (unpinPg sNewUnpin3 0 false).map
        (fun r => (pageAt r.2.1 0).pin_count) = some 0 :=
  c9_double_unpin sNewUnpin3 0 false 0 (by decide) (by decide) (by decide)

/-- C10.  When every frame is pinned, `new_page` returns null but the
allocation has already happened: `next_page_id_` has advanced by
`num_instances_`, and the page table, frames, free list, replacer and
disk are untouched (the returned state differs from the input only in
`next_page_id`).  The modulus hypothesis is `ValidatePageId`'s assert,
which holds on every reachable state. -/
theorem c10_new_all_pinned (s : BPMState)
    (hmod : s.next_page_id % s.num_instances = s.instance_index)
    (hpin : ∀ pg ∈ s.pages, 0 < pg.pin_count) :
    newPg s = some (none,
      { s with next_page_id := s.next_page_id + s.num_instances }, []) := by
  unfold newPg allocatePage
  dsimp only
  rw [if_pos hmod]
  dsimp only
  have hall : (s.pages.all fun pg => pg.pin_count != 0) = true := by
    rw [List.all_eq_true]
    intro pg hm
    have h1 := hpin pg hm
    simp only [bne_iff_ne, ne_eq, decide_eq_true_eq]
    omega
  rw [if_pos hall]

/-- C10 witness: on a pool-size-1 instance whose single frame is pinned
by `new_page`, a second `new_page` returns null yet consumes page id 1
(`next_page_id` goes from 1 to 2), changing nothing else. -/
theorem c10_new_all_pinned_witness :
    newPg sAllPinned1 = some (none,
      { sAllPinned1 with
          next_page_id := sAllPinned1.next_page_id + sAllPinned1.num_instances },
      []) :=
  c10_new_all_pinned sAllPinned1 (by decide) (by decide)

/-- C3 (amended).  Deleting a resident page with pin count 0 returns
`true`, removes the page's table entry, resets the frame's metadata
(`page_id` = sentinel, dirty = false, pin count = 0), and pushes the
frame id onto the free list — but it leaves the replacer UNCHANGED: the
frame id remains a candidate until the frame is next reused
(`DeletePgImp` never calls `replacer_->Pin`). -/
theorem c3_delete_resident_unpinned (s : BPMState) (pid : Int) (fid : Nat)
    (hl : ptLookup s.page_table pid = some fid)
    (hz : (pageAt s fid).pin_count = 0)
    (hlen : fid < s.pages.length) :
    (deletePg s pid).1 = true ∧
      ptLookup (deletePg s pid).2.1.page_table pid = none ∧
      pageAt (deletePg s pid).2.1 fid =
        { pageAt s fid with page_id := -1, pin_count := 0, is_dirty := false } ∧
      fid ∈ (deletePg s pid).2.1.free_list ∧
      (deletePg s pid).2.1.replacer = s.replacer := by
  unfold deletePg
  rw [hl]
  dsimp only
  rw [if_neg (by rw [hz]; exact lt_irrefl 0)]
  split
  · have hc := flush_components s pid
    refine ⟨rfl, ptLookup_erase _ _, ?_, ?_, hc.2.1⟩
    · unfold pageAt
      dsimp only
      rw [hc.1, getD_set_self _ _ _ _ hlen]
    · exact List.mem_append_right _ (by simp)
  · refine ⟨rfl, ptLookup_erase _ _, ?_, ?_, rfl⟩
    · unfold pageAt
      dsimp only
      rw [getD_set_self _ _ _ _ hlen]
    · exact List.mem_append_right _ (by simp)

/-- C3 witness: deleting the unpinned resident page 0 of `sNewUnpin3`
returns `true`, removes the entry, resets frame 0, frees it — and the
replacer still holds frame 0 (it equals its previous value). -/
theorem c3_delete_resident_unpinned_witness :
    (deletePg sNewUnpin3 0).1 = true ∧
      ptLookup (deletePg sNewUnpin3 0).2.1.page_table 0 = none ∧
      pageAt (deletePg sNewUnpin3 0).2.1 0 =
        { pageAt sNewUnpin3 0 with
            page_id := -1, pin_count := 0, is_dirty := false } ∧
      0 ∈ (deletePg sNewUnpin3 0).2.1.free_list ∧
      (deletePg sNewUnpin3 0).2.1.replacer = sNewUnpin3.replacer :=
  c3_delete_resident_unpinned sNewUnpin3 0 0 (by decide) (by decide) (by decide)

theorem triple_eq {α β γ : Type} {a a' : α} {b b' : β} {c c' : γ}
    (h : (a, b, c) = (a', b', c')) : a = a' ∧ b = b' ∧ c = c' := by
  injection h with h1 h23
  injection h23 with h2 h3
  exact ⟨h1, h2, h3⟩

/-- Case analysis of a successful `FindReplacePolicy`: either the frame
came from the free list (no disk traffic, pages untouched), or it is
the replacer victim — whose `page_id_`, bytes and dirty flag survive
(only its pin count may have been zeroed), and, when it was dirty, the
recorded trace is exactly the write of its old page followed by the
erase of that entry. -/
theorem frp_cases (s : BPMState) {f : Nat} {s' : BPMState} {a : List Action}
    (heq : findReplacePolicy s = (some f, s', a)) :
    ((∃ rest, s.free_list = f :: rest) ∧ s'.pages = s.pages ∧ a = []) ∨
      ((pageAt s' f).page_id = (pageAt s f).page_id ∧
       (pageAt s' f).data = (pageAt s f).data ∧
       (pageAt s' f).is_dirty = (pageAt s f).is_dirty ∧
       ((pageAt s f).is_dirty = true →
          a = [Action.writePage (pageAt s f).page_id (pageAt s f).data,
               Action.eraseEntry (pageAt s f).page_id])) := by
  unfold findReplacePolicy at heq
  split at heq
  · rename_i f0 rest hfl
    obtain ⟨h1, h2, h3⟩ := triple_eq heq
    injection h1 with h1
    subst h1
    subst h2
    subst h3
    exact Or.inl ⟨⟨rest, hfl⟩, rfl, rfl⟩
  · split at heq
    · obtain ⟨h1, _, _⟩ := triple_eq heq
      exact Option.noConfusion h1
    · rename_i fid r hv
      dsimp only at heq
      split at heq
      · obtain ⟨h1, _, _⟩ := triple_eq heq
        exact Option.noConfusion h1
      · rename_i e hfind
        split at heq
        · obtain ⟨h1, _, _⟩ := triple_eq heq
          exact Option.noConfusion h1
        · rename_i hne
          split at heq
          · rename_i hdirty
            obtain ⟨h1, h2, h3⟩ := triple_eq heq
            injection h1 with h1
            subst h1
            subst h2
            subst h3
            right
            unfold pageAt
            dsimp only
            refine ⟨?_, ?_, ?_, fun _ => rfl⟩
            · by_cases hlen : fid < s.pages.length
              · rw [getD_set_self _ _ _ _ hlen]
              · rw [List.set_eq_of_length_le (le_of_not_lt hlen)]
            · by_cases hlen : fid < s.pages.length
              · rw [getD_set_self _ _ _ _ hlen]
              · rw [List.set_eq_of_length_le (le_of_not_lt hlen)]
            · by_cases hlen : fid < s.pages.length
              · rw [getD_set_self _ _ _ _ hlen]
              · rw [List.set_eq_of_length_le (le_of_not_lt hlen)]
          · rename_i hclean
            obtain ⟨h1, h2, h3⟩ := triple_eq heq
            injection h1 with h1
            subst h1
            subst h2
            subst h3
            right
            refine ⟨rfl, rfl, rfl, fun hd => ?_⟩
            exact absurd hd hclean

/-- The recorded trace of a successful, non-sentinel `FlushPgImp` is a
single write of the frame's bytes. -/
theorem flushPg_acts (s : BPMState) (pid : Int) (fid : Nat)
    (hl : ptLookup s.page_table pid = some fid) (hpid : pid ≠ -1) :
    (flushPg s pid).2.2 = [Action.writePage pid (pageAt s fid).data] := by
  unfold flushPg
  rw [hl]
  dsimp only
  rw [if_neg hpid]

/-- Fresh pool-size-2 single instance after `new`→p0, `new`→p1 and
`unpin(0, true)`: page 0 resident in frame 0, dirty, pin count 0. -/
def sDirty0 : BPMState :=
  (runOps (mkInstance 2 1 0) [Op.newPage, Op.newPage, Op.unpin 0 true]).getD
    (mkInstance 2 1 0)

/-- C5 (amended).  Whenever a dirty frame holding a page id other than
the sentinel is evicted by a fetch miss or by `new_page`, or deleted, a
`write_page` carrying the frame's previous page id and its bytes is
issued before the table-entry removal and before any read of the newly
resident page id (the recorded trace in fact begins with that write).
The sentinel must be excluded: `delete(-1)` of a dirty resident
sentinel page drops the bytes (see the counterexample theorem).  The
`new_page` conjunct assumes an empty free list, i.e. a genuine
eviction. -/
theorem c5_dirty_write_first :
    (∀ (s : BPMState) (pid : Int) (fid : Nat) (s' : BPMState) (acts : List Action),
        ptLookup s.page_table pid = none →
        fetchPg s pid = (some fid, s', acts) →
        (pageAt s fid).is_dirty = true →
        dirtyWriteFirst (pageAt s fid).page_id (pageAt s fid).data pid acts) ∧
      (∀ (s : BPMState) (p : Int) (f : Nat) (s' : BPMState) (acts : List Action),
        s.free_list = [] →
        newPg s = some (some (p, f), s', acts) →
        (pageAt s f).is_dirty = true →
        dirtyWriteFirst (pageAt s f).page_id (pageAt s f).data p acts) ∧
      (∀ (s : BPMState) (pid : Int) (fid : Nat),
        pid ≠ -1 →
        ptLookup s.page_table pid = some fid →
        ¬ 0 < (pageAt s fid).pin_count →
        (pageAt s fid).is_dirty = true →
        dirtyWriteFirst pid (pageAt s fid).data pid (deletePg s pid).2.2) := by
  refine ⟨?_, ?_, ?_⟩
  · intro s pid fid s' acts hl hfetch hd
    unfold fetchPg at hfetch
    rw [hl] at hfetch
    dsimp only at hfetch
    split at hfetch
    · obtain ⟨h1, _, _⟩ := triple_eq hfetch
      exact Option.noConfusion h1
    · rename_i f0 s1 a1 heq
      split at hfetch
      · rename_i hdirty
        obtain ⟨h1, h2, h3⟩ := triple_eq hfetch
        injection h1 with h1
        subst h1
        subst h3
        rcases frp_cases s heq with ⟨⟨rest, hfl⟩, hpages, ha1⟩ | ⟨hid, hdata, hdirt, himp⟩
        · subst ha1
          have hpg : pageAt s1 f0 = pageAt s f0 := by
            unfold pageAt
            rw [hpages]
          rw [hpg, List.nil_append]
          exact dirtyWriteFirst_head _ _ _ _
        · have ha1 := himp hd
          subst ha1
          rw [hid, hdata]
          simp only [List.cons_append, List.nil_append]
          exact dirtyWriteFirst_head _ _ _ _
      · rename_i hclean
        obtain ⟨h1, h2, h3⟩ := triple_eq hfetch
        injection h1 with h1
        subst h1
        rcases frp_cases s heq with ⟨⟨rest, hfl⟩, hpages, ha1⟩ | ⟨hid, hdata, hdirt, himp⟩
        · have hpg : pageAt s1 f0 = pageAt s f0 := by
            unfold pageAt
            rw [hpages]
          exact absurd (hpg ▸ hd) hclean
        · exact absurd (hdirt.trans hd) hclean
  · intro s p f s' acts hfree hnew hd
    unfold newPg at hnew
    split at hnew
    · cases hnew
    · rename_i pid0 sA halloc
      obtain ⟨hp0, hsA⟩ := allocatePage_eq halloc
      subst hsA
      split at hnew
      · injection hnew with hnew
        obtain ⟨h1, _, _⟩ := triple_eq hnew
        exact Option.noConfusion h1
      · revert hnew
        split
        · rename_i s2 a2 heq
          intro hnew
          injection hnew with hnew
          obtain ⟨h1, _, _⟩ := triple_eq hnew
          exact Option.noConfusion h1
        · rename_i f0 s2 a2 heq
          intro hnew
          injection hnew with hnew
          obtain ⟨h1, h2, h3⟩ := triple_eq hnew
          injection h1 with h1
          injection h1 with hpp hff
          subst hpp
          subst hff
          subst h3
          rcases frp_cases _ heq with ⟨⟨rest, hrest⟩, hpages, ha2⟩ | ⟨hid, hdata, hdirt, himp⟩
          · dsimp only at hrest
            rw [hfree] at hrest
            cases hrest
          · have ha2 := himp hd
            subst ha2
            simp only [List.cons_append, List.nil_append]
            exact dirtyWriteFirst_head _ _ _ _
  · intro s pid fid hpid hl hp hd
    unfold deletePg
    rw [hl]
    dsimp only
    rw [if_neg hp, if_pos hd, flushPg_acts s pid fid hl hpid]
    simp only [List.cons_append, List.nil_append]
    exact dirtyWriteFirst_head _ _ _ _

/-- C5 witness: in the reachable state `sDirty0` (page 0 dirty, pin
count 0), `delete(0)` issues the write of page 0's bytes before the
entry removal. -/
theorem c5_dirty_write_first_witness :
    dirtyWriteFirst 0 (pageAt sDirty0 0).data 0 (deletePg sDirty0 0).2.2 :=
  c5_dirty_write_first.2.2 sDirty0 0 0 (by decide) (by decide) (by decide)
    (by decide)

theorem pageAt_mem (s : BPMState) (f : Nat) (hb : f < s.pages.length) :
    pageAt s f ∈ s.pages := by
  unfold pageAt
  simp only [List.getD_eq_getElem?_getD, List.getElem?_eq_getElem hb,
    Option.getD_some]
  exact List.getElem_mem _

/-- A successful `FindReplacePolicy` returns an in-range frame whose pin
count is still non-negative, when the input state's free list and
replacer hold only in-range frames and all pins are non-negative. -/
theorem frp_some_bounds (s : BPMState) {f : Nat} {s' : BPMState}
    {a : List Action} (heq : findReplacePolicy s = (some f, s', a))
    (hfree : ∀ g ∈ s.free_list, g < s.pages.length)
    (hlru : ∀ g ∈ s.replacer.lru, g < s.pages.length)
    (hpin : ∀ pg ∈ s.pages, 0 ≤ pg.pin_count) :
    f < s'.pages.length ∧ 0 ≤ (pageAt s' f).pin_count := by
  unfold findReplacePolicy at heq
  split at heq
  · rename_i f0 rest hfl
    obtain ⟨h1, h2, h3⟩ := triple_eq heq
    injection h1 with h1
    subst h1
    subst h2
    have hb := hfree f0 (by rw [hfl]; exact List.mem_cons_self _ _)
    exact ⟨hb, hpin _ (pageAt_mem s f0 hb)⟩
  · split at heq
    · obtain ⟨h1, _, _⟩ := triple_eq heq
      exact Option.noConfusion h1
    · rename_i fid r hv
      dsimp only at heq
      split at heq
      · obtain ⟨h1, _, _⟩ := triple_eq heq
        exact Option.noConfusion h1
      · rename_i e hfind
        split at heq
        · obtain ⟨h1, _, _⟩ := triple_eq heq
          exact Option.noConfusion h1
        · rename_i hne
          have hb : fid < s.pages.length := hlru fid (LRU.victim_mem hv)
          split at heq
          · rename_i hdirty
            obtain ⟨h1, h2, h3⟩ := triple_eq heq
            injection h1 with h1
            subst h1
            subst h2
            constructor
            · dsimp only
              rw [List.length_set]
              exact hb
            · unfold pageAt
              dsimp only
              rw [getD_set_self _ _ _ _ hb]
          · obtain ⟨h1, h2, h3⟩ := triple_eq heq
            injection h1 with h1
            subst h1
            subst h2
            exact ⟨hb, hpin _ (pageAt_mem s fid hb)⟩

/-- C6 (amended).  Immediately deleting the page returned by a
successful `new_page` does NOT undo it: the page is pinned (pin count
1), so `delete` returns `false` and leaves the pool exactly as
`new_page` left it — in particular the new page stays resident.  The
resident set is restored only after an intervening unpin.  The
hypotheses say the pool is well formed: pins are non-negative and the
free list and replacer hold only in-range frame ids. -/
theorem c6_delete_after_new (s : BPMState) (p : Int) (f : Nat)
    (s1 : BPMState) (acts : List Action)
    (hpin : ∀ pg ∈ s.pages, 0 ≤ pg.pin_count)
    (hfree : ∀ g ∈ s.free_list, g < s.pages.length)
    (hlru : ∀ g ∈ s.replacer.lru, g < s.pages.length)
    (hnew : newPg s = some (some (p, f), s1, acts)) :
    deletePg s1 p = (false, s1, []) ∧ ptLookup s1.page_table p = some f := by
  unfold newPg at hnew
  split at hnew
  · cases hnew
  · rename_i pid0 sA halloc
    obtain ⟨hp0, hsA⟩ := allocatePage_eq halloc
    subst hsA
    split at hnew
    · injection hnew with hnew
      obtain ⟨h1, _, _⟩ := triple_eq hnew
      exact Option.noConfusion h1
    · revert hnew
      split
      · rename_i s2 a2 heq
        intro hnew
        injection hnew with hnew
        obtain ⟨h1, _, _⟩ := triple_eq hnew
        exact Option.noConfusion h1
      · rename_i f0 s2 a2 heq
        intro hnew
        injection hnew with hnew
        obtain ⟨h1, h2, h3⟩ := triple_eq hnew
        injection h1 with h1
        injection h1 with hpp hff
        subst hpp
        subst hff
        subst h3
        subst h2
        obtain ⟨hb2, hpin2⟩ := frp_some_bounds _ heq hfree hlru hpin
        have hlook : ptLookup (ptInsert s2.page_table pid0 f0) pid0 = some f0 :=
          ptLookup_insert _ _ _
        refine ⟨?_, hlook⟩
        unfold deletePg
        rw [show ptLookup (ptInsert s2.page_table pid0 f0) pid0 = some f0 from hlook]
        dsimp only
        rw [if_pos ?hpos]
        case hpos =>
          unfold pageAt
          dsimp only
          rw [getD_set_self _ _ _ _ hb2]
          dsimp only
          unfold pageAt at hpin2
          omega

/-- C6 witness: on a fresh pool-size-3 instance, after `new_page`
returns page 0 in frame 0, `delete(0)` returns `false` and changes
nothing, and page 0 is still resident. -/
theorem c6_delete_after_new_witness :
    deletePg sNew3 0 = (false, sNew3, []) ∧
      ptLookup sNew3.page_table 0 = some 0 :=
  c6_delete_after_new (mkInstance 3 1 0) 0 0 sNew3
    [Action.insertEntry 0 0, Action.writePage 0 0]
    (by decide) (by decide) (by decide) (by rfl)

/-! Preservation of the allocator fields (`next_page_id_`,
`num_instances_`, `instance_index_`) by the public operations, feeding
claim C7. -/

theorem frp_meta (s : BPMState) :
    (findReplacePolicy s).2.1.next_page_id = s.next_page_id ∧
      (findReplacePolicy s).2.1.num_instances = s.num_instances ∧
      (findReplacePolicy s).2.1.instance_index = s.instance_index := by
  unfold findReplacePolicy
  split
  · exact ⟨rfl, rfl, rfl⟩
  · split
    · exact ⟨rfl, rfl, rfl⟩
    · dsimp only
      split
      · exact ⟨rfl, rfl, rfl⟩
      · split
        · exact ⟨rfl, rfl, rfl⟩
        · split
          · exact ⟨rfl, rfl, rfl⟩
          · exact ⟨rfl, rfl, rfl⟩

theorem fetch_meta (s : BPMState) (pid : Int) :
    (fetchPg s pid).2.1.next_page_id = s.next_page_id ∧
      (fetchPg s pid).2.1.num_instances = s.num_instances ∧
      (fetchPg s pid).2.1.instance_index = s.instance_index := by
  unfold fetchPg
  split
  · exact ⟨rfl, rfl, rfl⟩
  · split
    · rename_i s1 acts heq
      have h := frp_meta s
      rw [heq] at h
      exact h
    · rename_i fid s1 acts heq
      have h := frp_meta s
      rw [heq] at h
      dsimp only
      split
      · exact h
      · exact h

theorem unpin_meta (s : BPMState) (pid : Int) (d : Bool) :
    ∀ r, unpinPg s pid d = some r →
      r.2.1.next_page_id = s.next_page_id ∧
        r.2.1.num_instances = s.num_instances ∧
        r.2.1.instance_index = s.instance_index := by
  intro r hr
  unfold unpinPg at hr
  split at hr
  · cases hr
    exact ⟨rfl, rfl, rfl⟩
  · rename_i fid hl
    dsimp only at hr
    split at hr
    · cases hu : s.replacer.unpin fid with
      | none => rw [hu] at hr; cases hr
      | some rr =>
        rw [hu] at hr
        cases hr
        exact ⟨rfl, rfl, rfl⟩
    · split at hr
      · cases hu : s.replacer.unpin fid with
        | none => rw [hu] at hr; cases hr
        | some rr =>
          rw [hu] at hr
          cases hr
          exact ⟨rfl, rfl, rfl⟩
      · cases hr
        exact ⟨rfl, rfl, rfl⟩

theorem delete_meta (s : BPMState) (pid : Int) :
    (deletePg s pid).2.1.next_page_id = s.next_page_id ∧
      (deletePg s pid).2.1.num_instances = s.num_instances ∧
      (deletePg s pid).2.1.instance_index = s.instance_index := by
  unfold deletePg
  split
  · exact ⟨rfl, rfl, rfl⟩
  · dsimp only
    split
    · exact ⟨rfl, rfl, rfl⟩
    · split
      · have h := flush_components s pid
        exact ⟨h.2.2.2.2.1, h.2.2.2.2.2.1, h.2.2.2.2.2.2⟩
      · exact ⟨rfl, rfl, rfl⟩

theorem newPg_meta (s : BPMState) :
    ∀ r, newPg s = some r →
      r.2.1.next_page_id = s.next_page_id + s.num_instances ∧
        r.2.1.num_instances = s.num_instances ∧
        r.2.1.instance_index = s.instance_index := by
  intro r hr
  unfold newPg at hr
  split at hr
  · cases hr
  · rename_i pid0 sA halloc
    obtain ⟨hp0, hsA⟩ := allocatePage_eq halloc
    subst hsA
    split at hr
    · cases hr
      exact ⟨rfl, rfl, rfl⟩
    · revert hr
      split
      · rename_i s2 a2 heq
        intro hr
        cases hr
        have h := frp_meta
          { s with next_page_id := s.next_page_id + s.num_instances }
        rw [heq] at h
        exact h
      · rename_i f0 s2 a2 heq
        intro hr
        cases hr
        have h := frp_meta
          { s with next_page_id := s.next_page_id + s.num_instances }
        rw [heq] at h
        exact h

/-- Along any operation sequence, the ids captured by `AllocatePage`
(one per `new_page` call, successful or not) are strictly increasing
and all congruent to the starting `next_page_id` modulo the shard
count. -/
theorem runAlloc_facts (n : Int) (hn : 0 < n) :
    ∀ (ops : List Op) (s0 s : BPMState) (ids : List Int),
      s0.num_instances = n →
      runAlloc s0 ops = some (s, ids) →
      (∀ p ∈ ids, s0.next_page_id ≤ p ∧ p % n = s0.next_page_id % n) ∧
        List.Pairwise (· < ·) ids := by
  intro ops
  induction ops with
  | nil =>
    intro s0 s ids hnum hr
    injection hr with hr
    injection hr with h1 h2
    subst h2
    exact ⟨fun p hp => absurd hp (List.not_mem_nil p), List.Pairwise.nil⟩
  | cons op ops ih =>
    intro s0 s ids hnum hr
    cases op with
    | newPage =>
      unfold runAlloc at hr
      cases ha : applyOp s0 Op.newPage with
      | none => rw [ha] at hr; cases hr
      | some s1 =>
        rw [ha] at hr
        rw [Option.some_bind] at hr
        cases hrest : runAlloc s1 ops with
        | none => rw [hrest] at hr; cases hr
        | some r2 =>
          rw [hrest] at hr
          injection hr with hr
          injection hr with h1 h2
          subst h1
          subst h2
          have hmeta : s1.next_page_id = s0.next_page_id + s0.num_instances ∧
              s1.num_instances = s0.num_instances ∧
              s1.instance_index = s0.instance_index := by
            simp only [applyOp] at ha
            cases hnew : newPg s0 with
            | none => rw [hnew] at ha; cases ha
            | some rr =>
              rw [hnew] at ha
              cases ha
              exact newPg_meta s0 rr hnew
          have ihh := ih s1 r2.1 r2.2 (hmeta.2.1.trans hnum) hrest
          constructor
          · intro p hp
            rcases List.mem_cons.mp hp with hp | hp
            · subst hp
              exact ⟨le_refl _, rfl⟩
            · have h3 := ihh.1 p hp
              have h4 := hmeta.1
              have h5 := hnum
              constructor
              · have h6 := h3.1
                omega
              · have h7 : s1.next_page_id % n = s0.next_page_id % n := by
                  rw [h4, h5]
                  simp [Int.add_mul_emod_self_left s0.next_page_id n 1]
                exact h3.2.trans h7
          · refine List.Pairwise.cons ?_ ihh.2
            intro p hp
            have h3 := (ihh.1 p hp).1
            have h4 := hmeta.1
            have h5 := hnum
            omega
    | fetch pid =>
      unfold runAlloc at hr
      simp only [applyOp, Option.some_bind] at hr
      have hm := fetch_meta s0 pid
      have ihh := ih _ s ids (hm.2.1.trans hnum) hr
      rw [hm.1] at ihh
      exact ihh
    | unpin pid d =>
      unfold runAlloc at hr
      simp only [applyOp] at hr
      cases hu : unpinPg s0 pid d with
      | none => rw [hu] at hr; cases hr
      | some rr =>
        rw [hu] at hr
        simp only [Option.map_some', Option.some_bind] at hr
        have hm := unpin_meta s0 pid d rr hu
        have ihh := ih _ s ids (hm.2.1.trans hnum) hr
        rw [hm.1] at ihh
        exact ihh
    | flush pid =>
      unfold runAlloc at hr
      simp only [applyOp, Option.some_bind] at hr
      have hm := flush_components s0 pid
      have ihh := ih _ s ids (hm.2.2.2.2.2.1.trans hnum) hr
      rw [hm.2.2.2.2.1] at ihh
      exact ihh
    | delete pid =>
      unfold runAlloc at hr
      simp only [applyOp, Option.some_bind] at hr
      have hm := delete_meta s0 pid
      have ihh := ih _ s ids (hm.2.1.trans hnum) hr
      rw [hm.1] at ihh
      exact ihh

/-- C7.  On an instance constructed with shard count `n > 0` and index
`0 ≤ i < n`, along any operation sequence the page ids consumed by
`AllocatePage` form a strictly increasing sequence (next_page_id starts
at `i` and advances by `n` per allocation) and every one of them
satisfies `page_id % n = i`. -/
theorem c7_alloc_monotone_mod (pool_size : Nat) (n i : Int) (ops : List Op)
    (s : BPMState) (ids : List Int) (hn : 0 < n) (hi0 : 0 ≤ i) (hin : i < n)
    (hrun : runAlloc (mkInstance pool_size n i) ops = some (s, ids)) :
    List.Pairwise (· < ·) ids ∧ ∀ p ∈ ids, p % n = i := by
  have h := runAlloc_facts n hn ops (mkInstance pool_size n i) s ids rfl hrun
  refine ⟨h.2, fun p hp => ?_⟩
  have h2 := (h.1 p hp).2
  rw [h2]
  exact Int.emod_eq_of_lt hi0 hin

/-- The run used by the C7 witness: both ids allocated by instance 1 of
2 on a pool-size-1 instance (the second `new_page` fails — every frame
pinned — but still consumes an id). -/
def c7run : BPMState × List Int :=
  (runAlloc (mkInstance 1 2 1) [Op.newPage, Op.newPage]).getD
    (mkInstance 1 2 1, [])

/-- C7 witness: instance 1 of 2 allocates ids 1 and 3; in particular
the second allocated id 3 satisfies `3 % 2 = 1`. -/
theorem c7_alloc_monotone_mod_witness : (3 : Int) % 2 = 1 :=
  (c7_alloc_monotone_mod 1 2 1 [Op.newPage, Op.newPage] c7run.1 c7run.2
      (by decide) (by decide) (by decide) rfl).2 3 (by decide)

/-- C8 (amended).  `flush(INVALID_PAGE_ID)` returns `false` and leaves
the pool unchanged in every state; `delete(INVALID_PAGE_ID)` returns
its miss result `true` and leaves the pool unchanged in every state
where the sentinel is not resident.  (`fetch(INVALID_PAGE_ID)` is not
guarded — see the counterexample theorem.) -/
theorem c8_flush_delete_invalid :
    (∀ s : BPMState, flushPg s (-1) = (false, s, [])) ∧
      (∀ s : BPMState, ptLookup s.page_table (-1) = none →
        deletePg s (-1) = (true, s, [])) := by
  constructor
  · intro s
    unfold flushPg
    split
    · rfl
    · rw [if_pos rfl]
  · intro s hl
    unfold deletePg
    rw [hl]

/-- C8 witness: on a fresh pool-size-3 instance, `flush(-1)` fails fast
and `delete(-1)` returns `true`, both leaving the state unchanged. -/
theorem c8_flush_delete_invalid_witness :
    flushPg (mkInstance 3 1 0) (-1) = (false, mkInstance 3 1 0, []) ∧
      deletePg (mkInstance 3 1 0) (-1) = (true, mkInstance 3 1 0, []) :=
  ⟨c8_flush_delete_invalid.1 (mkInstance 3 1 0),
   c8_flush_delete_invalid.2 (mkInstance 3 1 0) (by decide)⟩

/-- C1.  Scenario S1 on the code: with pool size 3, after `new`→p0,
`new`→p1, `new`→p2 and unpinning all three, the fourth `new` succeeds
(page 3 becomes resident, in frame 1) but the page evicted is p1, not
p0: p0 is still resident and p1's table entry is gone.  The claim
requires the victim to be the least recently unpinned page (p0); the
eviction loop in `LRUReplacer::Unpin` silently discarded frame 0 from
the candidate list when the third frame was unpinned. -/
theorem c1_s1_evicts_p1 :
    (runOps (mkInstance 3 1 0) s1ops).map
        (fun s => (ptLookup s.page_table 0, ptLookup s.page_table 1,
                   ptLookup s.page_table 3)) =
      some (some 0, none, some 1) := by
  decide

/-- C2.  `LRUReplacer::Unpin` on a replacer of capacity 3 holding the
two candidates `[1, 0]` (candidate count 2 ≤ capacity), called with the
absent frame id 2: the result is `[2, 1]`, not the insertion-only
`[2, 1, 0]` the claim requires — candidate 0 was silently discarded by
the `size() >= capacity - 1` eviction loop. -/
theorem c2_unpin_discards_candidate :
    (LRU.unpin ⟨[1, 0], 3⟩ 2).map LRU.lru = some [2, 1] ∧
      (LRU.unpin ⟨[1, 0], 3⟩ 2).map LRU.lru ≠ some [2, 1, 0] := by
  decide

/-- C3 counterexample.  In the reachable state `sNewUnpin3` (page 0
resident in frame 0 with pin count 0, frame 0 a replacer candidate),
`delete(0)` returns `true` but frame 0 is still a candidate in the
replacer afterwards, contradicting the claim's "the frame id is no
longer a candidate in the replacer" (`DeletePgImp` never calls
`replacer_->Pin`). -/
theorem c3_delete_leaves_replacer :
    ptLookup sNewUnpin3.page_table 0 = some 0 ∧
      (pageAt sNewUnpin3 0).pin_count = 0 ∧
      (deletePg sNewUnpin3 0).1 = true ∧
      0 ∈ (deletePg sNewUnpin3 0).2.1.replacer.lru := by
  decide

/-- C5 counterexample.  The reachable state `sDirtyInvalid` (built by
the unguarded `fetch(-1)` followed by `unpin(-1, true)`) has frame 0
dirty and holding page `-1`.  `delete(-1)` then returns `true` and
removes the table entry, but its recorded trace contains no `writePage`
at all: `FlushPgImp` refuses `INVALID_PAGE_ID`, so the dirty bytes are
dropped, contradicting the claim for this execution. -/
theorem c5_dirty_sentinel_lost :
    (pageAt sDirtyInvalid 0).is_dirty = true ∧
      ptLookup sDirtyInvalid.page_table (-1) = some 0 ∧
      (deletePg sDirtyInvalid (-1)).1 = true ∧
      (deletePg sDirtyInvalid (-1)).2.2 =
        [Action.deallocPage (-1), Action.eraseEntry (-1)] ∧
      ¬ dirtyWriteFirst (-1) (pageAt sDirtyInvalid 0).data (-1)
          (deletePg sDirtyInvalid (-1)).2.2 := by
  decide

/-- C6 counterexample.  On a fresh pool-size-3 instance the resident
set is empty; `new_page` (→ page 0) followed immediately by `delete(0)`
leaves page 0 resident — `delete` returns `false` because `new_page`
pinned the page — so the two calls do not leave the resident set
unchanged. -/
theorem c6_delete_not_inverse :
    residentPids (mkInstance 3 1 0) = [] ∧
      (runOps (mkInstance 3 1 0) [Op.newPage, Op.delete 0]).map residentPids =
        some [0] := by
  decide

/-- C8 counterexample.  `FetchPgImp` has no sentinel guard: on a fresh
pool-size-3 instance, `fetch(INVALID_PAGE_ID)` returns frame 0 (not
null) and inserts `-1` into the page table, contradicting the claim's
"fetch(INVALID_PAGE_ID) returns null ... without changing the pool". -/
theorem c8_fetch_invalid_not_null :
    (fetchPg (mkInstance 3 1 0) (-1)).1 = some 0 ∧
      (fetchPg (mkInstance 3 1 0) (-1)).2.1.page_table = [(-1, 0)] := by
  decide

end Bustub
